import Mathlib

/-!
Verification of the hierarchy-reconstruction core of the DPWH 2026
hierarchy-analysis scripts.

The Lean definitions below are shallow embeddings of the Python functions in
`scripts/`:

* `is_bullet`, `find_hierarchy_info`, `rowAmount`, `interpretRow`, the
  position-based tree builder (`popLoop`, `step`, `buildForest`) and
  `parse_hierarchical_csv` embed `scripts/build_hierarchy.py`;
* `findHierarchyInfoX`, `xAmount`, `stepX` and `parse_hierarchical_xlsx`
  embed `scripts/build_hierarchy_from_xlsx.py`;
* `parse_formula_references` (with `matchSumAt`, `sumSearch`, `findRefs`)
  embeds `scripts/build_row_hierarchy.py`;
* `parse_amount`, `build_node`/`buildChildren` embed
  `scripts/build_tree_with_labels_amounts.py`;
* `get_leaf_nodes_with_details`, `leaf_to_table_row`,
  `flatten_hierarchy_to_csv`/`_to_json` embed `scripts/hierarchy_to_table.py`;
* `find_leaves_and_paths` embeds `scripts/hierarchy_to_parquet_v1.py`.

Machine floats of the source are modelled as exact rationals (`Rat`); the
numeric-literal acceptance of Python's `float()` builtin is modelled by
`pyFloat` (finite decimal/scientific literals; the special values
`inf`/`nan` and digit-group underscores accepted by CPython are not
modelled, as the data pipeline never produces them after the cleanup steps).
Python exceptions are modelled by `Option`/`none` results where they can
occur.
-/

/-- Greedy run of decimal-digit characters at the head of a character list:
returns the run and the remainder.  Models a regex `\d+`-style maximal munch
and the digit-consuming loops of `float()` literal parsing. -/
def takeDigits : List Char → List Char × List Char
  | [] => ([], [])
  | c :: r =>
    if c.isDigit then
      let p := takeDigits r
      (c :: p.1, p.2)
    else ([], c :: r)

/-- Numeric value of a list of decimal digit characters (most significant
first), as produced by Python's `int` on a digit string. -/
def digitsVal (ds : List Char) : Nat :=
  ds.foldl (fun n c => 10 * n + (c.toNat - 48)) 0

/-- Model of Python's `float()` builtin on already-cleaned strings: accepts an
optional sign, an integer part and/or a fractional part (at least one digit
overall), and an optional exponent.  Returns the exact rational value, or
`none` where `float()` raises `ValueError`.  The special values
`inf`/`infinity`/`nan` and underscore digit separators are not modelled. -/
def pyFloat (s : String) : Option Rat :=
  let l := s.toList
  let sgn : Rat := match l with
    | '-' :: _ => -1
    | _ => 1
  let l1 : List Char := match l with
    | '-' :: r => r
    | '+' :: r => r
    | _ => l
  let ip := takeDigits l1
  let fpart : List Char × List Char := match ip.2 with
    | '.' :: r => takeDigits r
    | _ => ([], ip.2)
  if ip.1 = [] ∧ fpart.1 = [] then none
  else
    let mant : Rat := sgn * ((digitsVal ip.1 : Rat) + (digitsVal fpart.1 : Rat) / (10 : Rat) ^ fpart.1.length)
    match fpart.2 with
    | [] => some mant
    | 'e' :: r =>
      match (match r with
             | '-' :: r2 => (true, r2)
             | '+' :: r2 => (false, r2)
             | _ => (false, r)) with
      | (eneg, r1) =>
        let ep := takeDigits r1
        if ep.1 = [] ∨ ep.2 ≠ [] then none
        else some (mant * (if eneg then 1 / (10 : Rat) ^ digitsVal ep.1 else (10 : Rat) ^ digitsVal ep.1))
    | 'E' :: r =>
      match (match r with
             | '-' :: r2 => (true, r2)
             | '+' :: r2 => (false, r2)
             | _ => (false, r)) with
      | (eneg, r1) =>
        let ep := takeDigits r1
        if ep.1 = [] ∨ ep.2 ≠ [] then none
        else some (mant * (if eneg then 1 / (10 : Rat) ^ digitsVal ep.1 else (10 : Rat) ^ digitsVal ep.1))
    | _ => none

/-- Python `str.isdigit()` on a string (list of characters): true iff the
string is non-empty and all characters are digits (ASCII model). -/
def pyIsDigitStr (ds : List Char) : Bool :=
  decide (ds ≠ []) && ds.all Char.isDigit

/-- The ASCII whitespace class stripped by Python's `str.strip()` (space, tab,
newline, carriage return, vertical tab, form feed). -/
def pyWS (c : Char) : Bool :=
  c.isWhitespace || c.toNat = 11 || c.toNat = 12

/-- Python `str.strip()`: drop leading and trailing whitespace.  (Defined over
the character list so that it reduces inside the kernel, unlike
`String.trim`.) -/
def pyStrip (s : String) : String :=
  String.mk (((s.toList.dropWhile pyWS).reverse.dropWhile pyWS).reverse)

/-- Python `str.replace(',', '')`: remove every comma. -/
def removeCommas (s : String) : String :=
  String.mk (s.toList.filter (fun c => c ≠ ','))

/-- Python `value.split('.')` over a character list: split at every `'.'`,
keeping empty pieces. -/
def splitOnDot : List Char → List (List Char)
  | [] => [[]]
  | c :: r =>
    if c = '.' then [] :: splitOnDot r
    else
      match splitOnDot r with
      | p :: ps => (c :: p) :: ps
      | [] => [[c]]

/-- The body of `is_bullet` (both `build_hierarchy.py` lines 13-52 and
`build_hierarchy_from_xlsx.py` lines 15-54) after the initial emptiness guard
and the `value = value.strip()` line, applied to the stripped value `v`.
Returns `none` where the Python code raises: the expression `value[-1]` on
line 39 raises `IndexError` when the stripped value is empty (which happens
exactly for whitespace-only non-empty inputs; the earlier length-2 test
short-circuits without indexing). -/
def isBulletStripped (v : String) : Option Bool :=
  let l := v.toList
  -- len(value) > 4 → not a bullet
  if l.length > 4 then some false
  -- len == 2, ends in '.', first char alphabetic → bullet
  else if l.length = 2 ∧ l.getLastD 'x' = '.' ∧ (l.headD 'x').isAlpha then some true
  -- value[-1] raises IndexError on the empty string
  else if l = [] then none
  -- ends in '.', rest all digits → bullet
  else if l.getLastD 'x' = '.' ∧ pyIsDigitStr l.dropLast then some true
  -- one '.' splitting two all-digit parts, total length ≤ 4 → bullet
  else if ('.' ∈ l ∧ l.length ≤ 4) ∧
          (let parts := splitOnDot l
           parts.length = 2 ∧ parts.all pyIsDigitStr) then some true
  -- single alphanumeric character → bullet
  else if l.length = 1 ∧ ((l.headD 'x').isAlpha ∨ (l.headD 'x').isDigit) then some true
  else some false

/-- `is_bullet(value)` from `build_hierarchy.py` lines 13-52: `some b` when the
Python function returns `b`, `none` when it raises. -/
def is_bullet (value : String) : Option Bool :=
  if value = "" then some false
  else isBulletStripped (pyStrip value)

/-- First column index `≥ i` whose cell is non-empty after stripping and
classifies as a bullet (the first loop of `find_hierarchy_info`,
`build_hierarchy.py` lines 69-72; cells are read with an in-range default). -/
def findBullet (row : List String) (i : Nat) : Option Nat :=
  if i < row.length then
    if pyStrip (row.getD i "") ≠ "" ∧ is_bullet (pyStrip (row.getD i "")) = some true then some i
    else findBullet row (i + 1)
  else none
termination_by row.length - i

/-- First column index `≥ i` whose cell is non-empty after stripping and does
not classify as a bullet (the second loop of `find_hierarchy_info`,
`build_hierarchy.py` lines 81-86). -/
def findNonBullet (row : List String) (i : Nat) : Option Nat :=
  if i < row.length then
    if pyStrip (row.getD i "") ≠ "" ∧ ¬ (is_bullet (pyStrip (row.getD i "")) = some true) then some i
    else findNonBullet row (i + 1)
  else none
termination_by row.length - i

/-- `find_hierarchy_info(row, start_col)` from `build_hierarchy.py` lines
54-88: the `(hierarchy_column, value_column)` pair, or `none` when the row is
skipped. -/
def find_hierarchy_info (row : List String) (start_col : Nat) : Option (Nat × Nat) :=
  match findBullet row start_col with
  | some i =>
    -- bullet found: value must sit in the immediately following column
    if i + 1 < row.length ∧ pyStrip (row.getD (i + 1) "") ≠ "" then some (i, i + 1)
    else none
  | none => (findNonBullet row start_col).map (fun i => (i, i))

/-- Figure parsing of the position-based path (`build_hierarchy.py` lines
142-151): strip, drop commas, `float(...)` with exceptions caught, leaving the
amount absent. -/
def rowAmount (row : List String) (value_column : Nat) : Option Rat :=
  if value_column < row.length ∧ row.getD value_column "" ≠ "" then
    let s := removeCommas (pyStrip (row.getD value_column ""))
    if s = "" then none else pyFloat s
  else none

/-- One interpreted row of the position-based CSV path: the depth column, the
textual value and the optional figure. -/
structure InterpRow where
  col : Nat
  value : String
  amount : Option Rat

/-- Row interpretation of `parse_hierarchical_csv` (`build_hierarchy.py` lines
121-151): the empty-row skip, `find_hierarchy_info`, the value-column read and
the figure parse; `none` for rows that yield no node. -/
def interpretRow (value_column start_column : Nat) (row : List String) : Option InterpRow :=
  if row.all (fun c => pyStrip c = "") then none
  else
    match find_hierarchy_info row start_column with
    | none => none
    | some hv =>
      if hv.2 < row.length ∧ row.getD hv.2 "" ≠ "" then
        let dv := pyStrip (row.getD hv.2 "")
        if dv = "" then none
        else some ⟨hv.1, dv, rowAmount row value_column⟩
      else none

/-- A node of the position-based tree before the `_hierarchy_col` cleanup
(`build_hierarchy.py` lines 153-158 and 177): value, optional amount,
optional description (set only by the formatting-aware XLSX path), ordered
children, plus the temporary `_hierarchy_col` (`hcol`) and — as ghost
instrumentation not present in the Python dict — the 0-based position `idx`
of the creating row among the interpreted rows, used only to state that
sibling order equals source row order. -/
inductive PNode where
  | mk (idx : Nat) (hcol : Nat) (value : String) (amount : Option Rat)
       (descr : Option String) (children : List PNode)

/-- Ghost row position of a node. -/
def PNode.idx : PNode → Nat
  | .mk i _ _ _ _ _ => i

/-- The `_hierarchy_col` of a node. -/
def PNode.hcol : PNode → Nat
  | .mk _ c _ _ _ _ => c

/-- The `value` field of a node. -/
def PNode.value : PNode → String
  | .mk _ _ v _ _ _ => v

/-- The `amount` field of a node. -/
def PNode.amount : PNode → Option Rat
  | .mk _ _ _ a _ _ => a

/-- The `description` field of a node (absent unless set by the XLSX path). -/
def PNode.descr : PNode → Option String
  | .mk _ _ _ _ d _ => d

/-- The ordered children of a node. -/
def PNode.children : PNode → List PNode
  | .mk _ _ _ _ _ cs => cs

/-- An open node on the builder's stack.  In the Python code the stack holds
the node dicts themselves and children are appended by mutation; in this
functional embedding a stack frame accumulates the completed children
(`kids`) and is closed into a `PNode` when popped. -/
structure Frame where
  idx : Nat
  hcol : Nat
  value : String
  amount : Option Rat
  descr : Option String
  kids : List PNode

/-- Close a stack frame into a finished node. -/
def closeFrame (f : Frame) : PNode :=
  .mk f.idx f.hcol f.value f.amount f.descr f.kids

/-- State of the position-based tree builder: completed root nodes in
creation order, the stack of open nodes (head = top), and the position of the
next interpreted row. -/
structure BState where
  roots : List PNode
  stack : List Frame
  nextIdx : Nat

/-- The parent-resolution pop loop (`build_hierarchy.py` lines 160-174): pop
the stack while its top's `_hierarchy_col` is not strictly less than the new
row's column `c`.  Each popped frame is closed and attached as the last child
of the frame below it, or appended to the completed roots when it is the
bottom of the stack — which reproduces, in creation order, the mutations the
Python code performed when those nodes were first created.  The just-closed
node travels down the stack as the `pend` accumulator (initially `none`),
making the recursion structural on the stack. -/
def popLoop (c : Nat) : List Frame → List PNode → Option PNode → List Frame × List PNode
  | [], roots, none => ([], roots)
  | [], roots, some nd => ([], roots ++ [nd])
  | f :: rest, roots, pend =>
    let fm : Frame := match pend with
      | none => f
      | some nd => { f with kids := f.kids ++ [nd] }
    if fm.hcol < c then (fm :: rest, roots)
    else popLoop c rest roots (some (closeFrame fm))

/-- One step of the position-based tree builder on an interpreted row
(`build_hierarchy.py` lines 153-188): resolve the parent by popping, then
push the new node's frame. -/
def step (st : BState) (r : InterpRow) : BState :=
  let p := popLoop r.col st.stack st.roots none
  { roots := p.2
    stack := ⟨st.nextIdx, r.col, r.value, r.amount, none, []⟩ :: p.1
    nextIdx := st.nextIdx + 1 }

/-- Close every frame still open when the input ends (in the Python code the
corresponding nodes are already wired into the tree; here they are flushed by
popping with column 0, which no `_hierarchy_col` is below). -/
def flush (st : BState) : List PNode :=
  (popLoop 0 st.stack st.roots none).2

/-- The position-based tree builder over a sequence of interpreted rows: the
forest of root nodes, with `_hierarchy_col` and the ghost row index still
attached. -/
def buildForest (rows : List InterpRow) : List PNode :=
  flush (rows.foldl step ⟨[], [], 0⟩)

/-- A node of the output tree after `clean_node` (`build_hierarchy.py` lines
197-205) removed the temporary `_hierarchy_col`. -/
inductive Node where
  | mk (value : String) (amount : Option Rat) (descr : Option String)
       (children : List Node)

/-- The `value` field of an output node. -/
def Node.value : Node → String
  | .mk v _ _ _ => v

/-- The `amount` field of an output node. -/
def Node.amount : Node → Option Rat
  | .mk _ a _ _ => a

/-- The `description` field of an output node. -/
def Node.descr : Node → Option String
  | .mk _ _ d _ => d

/-- The ordered children of an output node. -/
def Node.children : Node → List Node
  | .mk _ _ _ cs => cs

theorem Node_sizeOf_children_lt (n : Node) : sizeOf n.children < sizeOf n := by
  cases n with
  | mk v a d cs => simp [Node.children]

/-- `clean_node` applied to a forest: erase `_hierarchy_col` (and the ghost
index) from every node. -/
def cleanForest : List PNode → List Node
  | [] => []
  | .mk _ _ v a d cs :: rest => .mk v a d (cleanForest cs) :: cleanForest rest

/-- `parse_hierarchical_csv` (`build_hierarchy.py` lines 90-207) restricted to
its in-memory core: interpret each row, build the position-based forest, and
clean the temporary fields (row-range filtering and file/printing I-O are out
of scope). -/
def parse_hierarchical_csv (rows : List (List String)) (value_column start_column : Nat) :
    List Node :=
  cleanForest (buildForest (rows.filterMap (interpretRow value_column start_column)))

/-- A spreadsheet cell of the formatting-aware XLSX path: its text (empty for
a `None` value) and its italic flag.  `get_cell_formatting` also reads bold
and underline, but `find_hierarchy_info` uses only the italic flag, so only
it is modelled. -/
structure XCell where
  text : String
  italic : Bool

/-- Default cell used for out-of-range reads (never hit on in-range indices). -/
def XCell.empty : XCell := ⟨"", false⟩

/-- First column index `≥ i` whose cell has a truthy value that classifies as
a bullet (the first loop of `find_hierarchy_info`,
`build_hierarchy_from_xlsx.py` lines 93-97; the stripped value is passed to
`is_bullet`, which returns `False` for the empty string). -/
def findBulletX (row : List XCell) (i : Nat) : Option Nat :=
  if i < row.length then
    if (row.getD i XCell.empty).text ≠ "" ∧
       is_bullet (pyStrip (row.getD i XCell.empty).text) = some true then some i
    else findBulletX row (i + 1)
  else none
termination_by row.length - i

/-- First column index `≥ i` whose cell has a truthy value that does not
classify as a bullet (the second loop, lines 110-119). -/
def findNonBulletX (row : List XCell) (i : Nat) : Option Nat :=
  if i < row.length then
    if (row.getD i XCell.empty).text ≠ "" ∧
       ¬ (is_bullet (pyStrip (row.getD i XCell.empty).text) = some true) then some i
    else findNonBulletX row (i + 1)
  else none
termination_by row.length - i

/-- `find_hierarchy_info(row, start_col, amount_col)` from
`build_hierarchy_from_xlsx.py` lines 76-121: the triple
`(hierarchy_column, value_column, is_description)` where `is_description` is
the italic flag of the chosen value cell, or `none` when the row is skipped.
Unlike the CSV variant, the bullet branch only requires the following cell's
value to be truthy (non-empty text), not non-blank after stripping. -/
def findHierarchyInfoX (row : List XCell) (start_col : Nat) : Option (Nat × Nat × Bool) :=
  match findBulletX row start_col with
  | some i =>
    if i + 1 < row.length ∧ (row.getD (i + 1) XCell.empty).text ≠ "" then
      some (i, i + 1, (row.getD (i + 1) XCell.empty).italic)
    else none
  | none =>
    (findNonBulletX row start_col).map
      (fun i => (i, i, (row.getD i XCell.empty).italic))

/-- Figure parsing of the XLSX path (`build_hierarchy_from_xlsx.py` lines
182-191): same cleanup and `float(...)`-with-caught-exceptions as the CSV
path, on the cell's text. -/
def xAmount (row : List XCell) (value_column : Nat) : Option Rat :=
  if value_column < row.length ∧ (row.getD value_column XCell.empty).text ≠ "" then
    let s := removeCommas (pyStrip (row.getD value_column XCell.empty).text)
    if s = "" then none else pyFloat s
  else none

/-- Append a description row's text to the (possibly absent) description of
the node on top of the stack (`build_hierarchy_from_xlsx.py` lines 198-204):
a first description is stored as-is, later ones are space-joined. -/
def descAppend (old : Option String) (dv : String) : String :=
  match old with
  | none => dv
  | some d => d ++ " " ++ dv

/-- One loop iteration of `parse_hierarchical_xlsx`
(`build_hierarchy_from_xlsx.py` lines 152-243) on one row of cells: skip
blank/unusable rows, classify description rows (italic value cell and no
amount) and attach their text to the top-of-stack node, and otherwise create
a node exactly as the CSV builder does. -/
def stepX (value_column start_column : Nat) (st : BState) (row : List XCell) : BState :=
  if row.all (fun c => pyStrip c.text = "") then st
  else
    match findHierarchyInfoX row start_column with
    | none => st
    | some info =>
      let vcol := info.2.1
      if vcol < row.length ∧ (row.getD vcol XCell.empty).text ≠ "" then
        let dv := pyStrip (row.getD vcol XCell.empty).text
        if dv = "" then st
        else
          let amount := xAmount row value_column
          if info.2.2 ∧ amount = none then
            -- description row: no node; attach to the top of the stack, or
            -- drop the text when the stack is empty
            match st.stack with
            | [] => st
            | f :: rest =>
              { st with stack := { f with descr := some (descAppend f.descr dv) } :: rest }
          else
            let p := popLoop info.1 st.stack st.roots none
            { roots := p.2
              stack := ⟨st.nextIdx, info.1, dv, amount, none, []⟩ :: p.1
              nextIdx := st.nextIdx + 1 }
      else st

/-- `parse_hierarchical_xlsx` (`build_hierarchy_from_xlsx.py` lines 123-263)
restricted to its in-memory core (row-range filtering and I-O out of scope). -/
def parse_hierarchical_xlsx (rows : List (List XCell)) (value_column start_column : Nat) :
    List Node :=
  cleanForest (flush (rows.foldl (stepX value_column start_column) ⟨[], [], 0⟩))

/-- A row-graph node of the formula-based tree (`build_row_hierarchy.py`
`build_tree_from_relationships`): a source row number and its ordered
children. -/
inductive RNode where
  | mk (row : Nat) (children : List RNode)

/-- The source row number of a row-graph node. -/
def RNode.row : RNode → Nat
  | .mk r _ => r

/-- The ordered children of a row-graph node. -/
def RNode.children : RNode → List RNode
  | .mk _ cs => cs

/-- The `(label, amount)` data computed per row by `process_batch`
(`build_tree_with_labels_amounts.py` lines 40-59). -/
structure RowEntry where
  label : String
  amount : Rat

/-- `row_data.get(row_num, {}).get('label', '')`. -/
def labelOf (rd : Nat → Option RowEntry) (r : Nat) : String :=
  match rd r with
  | some e => e.label
  | none => ""

/-- `row_data.get(row_num, {}).get('amount', 0.0)`. -/
def amountOf (rd : Nat → Option RowEntry) (r : Nat) : Rat :=
  match rd r with
  | some e => e.amount
  | none => 0

/-- A joined node (`build_tree_with_labels_amounts.py` lines 151-156): row
number, resolved label and amount, and the surviving children. -/
structure JNode where
  row : Nat
  label : String
  amount : Rat
  children : List JNode

mutual
/-- `build_node` inside `build_tree_from_hierarchy`
(`build_tree_with_labels_amounts.py` lines 142-164): look up the row's label
and amount; a blank label returns `none`, pruning the node and with it its
entire subtree; otherwise the node survives with the non-`none` results of
its children. -/
def build_node (rd : Nat → Option RowEntry) : RNode → Option JNode
  | .mk row cs =>
    let label := labelOf rd row
    if label = "" ∨ pyStrip label = "" then none
    else some ⟨row, label, amountOf rd row, buildChildren rd cs⟩

/-- The `for child in node['children']` loop of `build_node`: keep the
non-`none` built children in order. -/
def buildChildren (rd : Nat → Option RowEntry) : List RNode → List JNode
  | [] => []
  | c :: rest =>
    match build_node rd c with
    | none => buildChildren rd rest
    | some j => j :: buildChildren rd rest
end

/-- `build_tree_from_hierarchy` (`build_tree_with_labels_amounts.py` lines
134-175) applied to the root list of the row hierarchy. -/
def build_tree_from_hierarchy (rd : Nat → Option RowEntry) (roots : List RNode) :
    List JNode :=
  buildChildren rd roots

/-- The character-removal cleanup of `parse_amount`
(`build_tree_with_labels_amounts.py` line 19): drop whitespace, commas and
quote characters anywhere in the string. -/
def joinerCleanup (s : String) : String :=
  String.mk (s.toList.filter
    (fun c => !([44, 39, 34, 32, 9, 10, 13, 11, 12].contains c.toNat)))

/-- `parse_amount` (`build_tree_with_labels_amounts.py` lines 14-23): `None`
or blank input yields `0.0`; otherwise whitespace, commas and quote characters
are removed anywhere in the string and `float(...)` is attempted, any failure
yielding `0.0`.  The character codes 44, 39, 34 are `,`, the single quote and
the double quote; 32, 9, 10, 13, 11, 12 are the ASCII whitespace class of the
regex `\s`. -/
def parse_amount (amount_str : Option String) : Rat :=
  match amount_str with
  | none => 0
  | some s =>
    if pyStrip s = "" then 0
    else
      match pyFloat (joinerCleanup s) with
      | some x => x
      | none => 0

/-- Attempt the regex `SUM\(K(\d+):K(\d+)\)` (with `re.IGNORECASE`) at the
head of the character list, for target column letter `t`: on success, the two
captured row numbers.  The captures are greedy digit runs; backtracking
cannot produce a different match for this pattern. -/
def matchSumAt (t : Char) : List Char → Option (Nat × Nat)
  | s :: u :: m :: p :: k1 :: r1 =>
    if (s = 'S' ∨ s = 's') ∧ (u = 'U' ∨ u = 'u') ∧ (m = 'M' ∨ m = 'm') ∧
       p = '(' ∧ (k1 = t ∨ k1.toLower = t.toLower) then
      let d1 := takeDigits r1
      if d1.1 = [] then none
      else
        match d1.2 with
        | ':' :: k2 :: r3 =>
          if k2 = t ∨ k2.toLower = t.toLower then
            let d2 := takeDigits r3
            if d2.1 = [] then none
            else
              match d2.2 with
              | ')' :: _ => some (digitsVal d1.1, digitsVal d2.1)
              | _ => none
          else none
        | _ => none
    else none
  | _ => none

/-- `re.search` of the SUM-range pattern: try each start position left to
right and return the first match. -/
def sumSearch (t : Char) : List Char → Option (Nat × Nat)
  | [] => none
  | c :: rest =>
    match matchSumAt t (c :: rest) with
    | some r => some r
    | none => sumSearch t rest

theorem takeDigits_snd_length_le (l : List Char) : (takeDigits l).2.length ≤ l.length := by
  induction l with
  | nil => simp [takeDigits]
  | cons c r ih =>
    by_cases hc : c.isDigit
    · simp [takeDigits, hc]
      omega
    · simp [takeDigits, hc]

/-- `re.findall` of the individual-reference pattern `K\d+` (case-sensitive):
left-to-right, non-overlapping scan collecting each reference's row number
(`int` of the digits of the match). -/
def findRefs (t : Char) (l : List Char) : List Nat :=
  match l with
  | [] => []
  | c :: rest =>
    if c = t then
      match h : takeDigits rest with
      | ([], _) => findRefs t rest
      | (d :: ds, r2) => digitsVal (d :: ds) :: findRefs t r2
    else findRefs t rest
termination_by l.length
decreasing_by
  · simp
  · have hh := takeDigits_snd_length_le r
    rw [h] at hh
    simp at hh
    simp only [List.length_cons]
    omega
  · simp

/-- Insert into a strictly ascending list, skipping duplicates. -/
def insertSorted (x : Nat) : List Nat → List Nat
  | [] => [x]
  | y :: r =>
    if x < y then x :: y :: r
    else if x = y then y :: r
    else y :: insertSorted x r

/-- Python `sorted(set(l))`: the strictly ascending list of the distinct
elements of `l`. -/
def sortedDedup (l : List Nat) : List Nat :=
  l.foldr insertSorted []

/-- `parse_formula_references(formula, target_column)` from
`build_row_hierarchy.py` lines 15-38: non-formulas yield `[]`; after
stripping the leading `=`, a SUM-range match expands to every row in the
inclusive range, and otherwise the individual references are collected,
deduplicated and sorted. -/
def parse_formula_references (formula : String) (target_column : Char) : List Nat :=
  match formula.toList with
  | '=' :: rest =>
    match sumSearch target_column rest with
    | some ab => List.range' ab.1 (ab.2 + 1 - ab.1)
    | none => sortedDedup (findRefs target_column rest)
  | _ => []

/-- A level entry of the `levels` mapping carried by the table flattener
(`hierarchy_to_table.py` lines 67-72). -/
structure LevelEntry where
  value : String
  amount : Option Rat
  description : Option String

/-- The parent-metadata record threaded through `get_leaf_nodes_with_details`
(`hierarchy_to_table.py` lines 51-56): accumulated path, ancestor nodes and
per-level entries. -/
structure PInfo where
  path : List String
  ancestors : List Node
  levels : List (Nat × LevelEntry)

/-- A Flattened Leaf Record as assembled by `get_leaf_nodes_with_details`
(`hierarchy_to_table.py` lines 76-86). -/
structure LeafInfo where
  path : List String
  ancestors : List Node
  levels : List (Nat × LevelEntry)
  value : String
  description : String
  amount : Option Rat
  depth : Nat

/-- `get_leaf_nodes_with_details(nodes, parent_info)` from
`hierarchy_to_table.py` lines 40-99: pre-order walk emitting one record per
childless node, with `depth = len(current_path) - 1`. -/
def get_leaf_nodes_with_details (pinfo : PInfo) (nodes : List Node) : List LeafInfo :=
  match nodes with
  | [] => []
  | n :: rest =>
    let cp := pinfo.path ++ [n.value]
    let ca := pinfo.ancestors ++ [n]
    let cl := pinfo.levels ++ [(cp.length - 1, ⟨n.value, n.amount, n.descr⟩)]
    (if n.children.isEmpty then
      [⟨cp, ca, cl, n.value, n.descr.getD "", n.amount, cp.length - 1⟩]
     else get_leaf_nodes_with_details ⟨cp, ca, cl⟩ n.children)
    ++ get_leaf_nodes_with_details pinfo rest
termination_by sizeOf nodes
decreasing_by
  · have := Node_sizeOf_children_lt n
    simp only [List.cons.sizeOf_spec]
    omega
  · simp

/-- A row of the flattened table (`hierarchy_to_table.py` lines 101-131):
level columns `level_0 .. level_{max_levels-1}`, then value, description,
amount, depth and the joined full path. -/
structure TableRow where
  levels : List String
  value : String
  description : String
  amount : Option Rat
  depth : Nat
  full_path : String

/-- `leaf_to_table_row(leaf, max_levels)` from `hierarchy_to_table.py` lines
101-131. -/
def leaf_to_table_row (leaf : LeafInfo) (max_levels : Nat) : TableRow :=
  { levels := (List.range max_levels).map
      (fun i => match leaf.levels.lookup i with
                | some e => e.value
                | none => "")
    value := leaf.value
    description := leaf.description
    amount := leaf.amount
    depth := leaf.depth
    full_path := String.intercalate " > " leaf.path }

/-- The in-memory core of `flatten_hierarchy_to_csv` (`hierarchy_to_table.py`
lines 133-185): extract the leaf records, compute the maximum observed depth
— `max(...)` over an empty sequence raises `ValueError`, modelled as `none` —
widen the level count, and convert every leaf to a table row. -/
def flatten_hierarchy_to_csv (data : List Node) (max_levels : Nat) :
    Option (List TableRow) :=
  let leaves := get_leaf_nodes_with_details ⟨[], [], []⟩ data
  match (leaves.map LeafInfo.depth).max? with
  | none => none
  | some md => some (leaves.map (fun l => leaf_to_table_row l (max max_levels (md + 1))))

/-- The in-memory core of `flatten_hierarchy_to_json` (`hierarchy_to_table.py`
lines 187-226): identical record computation (only the serialization, out of
scope, differs). -/
def flatten_hierarchy_to_json (data : List Node) (max_levels : Nat) :
    Option (List TableRow) :=
  let leaves := get_leaf_nodes_with_details ⟨[], [], []⟩ data
  match (leaves.map LeafInfo.depth).max? with
  | none => none
  | some md => some (leaves.map (fun l => leaf_to_table_row l (max max_levels (md + 1))))

/-- A leaf row of the parquet flattener (`hierarchy_to_parquet_v1.py` lines
44-63): the joined path, the fixed columns `level_0 .. level_11`, value,
description, amount, and `depth = len(path)`. -/
structure PRecord where
  pathStr : String
  levels : List String
  value : String
  description : String
  amount : Option Rat
  depth : Nat

/-- The `traverse` closure of `find_leaves_and_paths`
(`hierarchy_to_parquet_v1.py` lines 35-67), processing a list of sibling
nodes against the accumulated path: emits one record per childless node with
`level_0 = "."`, `level_i = path[i-1]` and `depth = len(path)`. -/
def traverseP (cp : List String) (nodes : List Node) : List PRecord :=
  match nodes with
  | [] => []
  | n :: rest =>
    let value := pyStrip n.value
    let path := cp ++ [value]
    (if n.children.isEmpty then
      [{ pathStr := String.intercalate " > " path
         levels := "." :: (List.range 11).map (fun i => path.getD i "")
         value := value
         description := n.descr.getD ""
         amount := n.amount
         depth := path.length }]
     else traverseP path n.children)
    ++ traverseP cp rest
termination_by sizeOf nodes
decreasing_by
  · have := Node_sizeOf_children_lt n
    simp only [List.cons.sizeOf_spec]
    omega
  · simp

/-- `find_leaves_and_paths(nodes)` from `hierarchy_to_parquet_v1.py` lines
27-73: traversal of every root with an empty initial path. -/
def find_leaves_and_paths (nodes : List Node) : List PRecord :=
  traverseP [] nodes

/-- Specification-level count of childless (terminal) nodes of a forest. -/
def countLeaves : List Node → Nat
  | [] => 0
  | n :: rest =>
    (if n.children.isEmpty then 1 else countLeaves n.children) + countLeaves rest
termination_by l => sizeOf l
decreasing_by
  · have := Node_sizeOf_children_lt n
    simp only [List.cons.sizeOf_spec]
    omega
  · simp

/-- Specification-level list of root-to-leaf path lengths of a forest, in
pre-order; `d` is the path length of the forest's nodes themselves (so the
top-level call uses `d = 1`). -/
def leafPathLens (d : Nat) : List Node → List Nat
  | [] => []
  | n :: rest =>
    (if n.children.isEmpty then [d] else leafPathLens (d + 1) n.children)
    ++ leafPathLens d rest
termination_by l => sizeOf l
decreasing_by
  · have := Node_sizeOf_children_lt n
    simp only [List.cons.sizeOf_spec]
    omega
  · simp

/-- Strictly ascending ghost row indices: used to state that sibling order
(and root order) equals source row order. -/
def ascIdx : List PNode → Bool
  | [] => true
  | [_] => true
  | a :: b :: t => decide (a.idx < b.idx) && ascIdx (b :: t)

/-- Well-formedness checker for every node of a forest: each node's children
are in source row order, each child's depth column is strictly greater than
its parent's, recursively. -/
def nodesOK : List PNode → Bool
  | [] => true
  | n :: rest =>
    ascIdx n.children && n.children.all (fun c => decide (n.hcol < c.hcol))
    && nodesOK n.children && nodesOK rest
termination_by l => sizeOf l
decreasing_by
  · cases n with
    | mk i c v a d cs =>
      simp only [PNode.children, List.cons.sizeOf_spec, PNode.mk.sizeOf_spec]
      omega
  · simp

/-- Every node of the forest has depth column strictly greater than `c`,
recursively (used to state the ancestor version of the depth-column
invariant). -/
def colsBelow (c : Nat) : List PNode → Bool
  | [] => true
  | n :: rest => decide (c < n.hcol) && colsBelow c n.children && colsBelow c rest
termination_by l => sizeOf l
decreasing_by
  · cases n with
    | mk i co v a d cs =>
      simp only [PNode.children, List.cons.sizeOf_spec, PNode.mk.sizeOf_spec]
      omega
  · simp

/-- Every node's strict descendants all have depth column strictly greater
than the node's own: no node's depth column is less than (or even equal to)
any of its ancestors'. -/
def deepOK : List PNode → Bool
  | [] => true
  | n :: rest => colsBelow n.hcol n.children && deepOK n.children && deepOK rest
termination_by l => sizeOf l
decreasing_by
  · cases n with
    | mk i co v a d cs =>
      simp only [PNode.children, List.cons.sizeOf_spec, PNode.mk.sizeOf_spec]
      omega
  · simp

/-- Full well-formedness of the built forest: roots in source row order and
every node well-formed. -/
def forestOK (f : List PNode) : Bool :=
  ascIdx f && nodesOK f

/-- C9: evaluating the Marker Classifier at the failing input.  The empty
token is classified (never a marker), but a whitespace-only token makes
`is_bullet` raise `IndexError` (modelled as `none`): `value[-1]` is evaluated
on the empty string obtained by stripping, contradicting the claim that the
classifier always returns a classification without raising. -/
theorem C9_is_bullet_raises_on_whitespace :
    is_bullet "" = some false ∧ is_bullet " " = none ∧ is_bullet "  " = none := by
  refine ⟨rfl, ?_, ?_⟩ <;> rfl

/-- C4 counterexample: for the non-numeric figure text `"abc"` the Label/Amount
Joiner's `parse_amount` resolves to the number `0.0`, not to an absent
amount as the claim states. -/
theorem C4_counterexample_parse_amount_zero :
    parse_amount (some "abc") = 0 := by rfl

/-- C4 (amended): a figure that is non-numeric after cleanup never raises in
either path; the position-based path resolves it to an absent amount, while
the Label/Amount Joiner's `parse_amount` resolves it to `0.0` (and both
functions are total, so no exception is possible). -/
theorem C4_amended_nonnumeric_figures :
    (∀ (row : List String) (value_column : Nat),
       pyFloat (removeCommas (pyStrip (row.getD value_column ""))) = none →
       rowAmount row value_column = none)
    ∧ (∀ s : String, pyFloat (joinerCleanup s) = none → parse_amount (some s) = 0) := by
  constructor
  · intro row vc h
    unfold rowAmount
    by_cases h1 : vc < row.length ∧ row.getD vc "" ≠ ""
    · simp only [if_pos h1]
      show (if removeCommas (pyStrip (row.getD vc "")) = "" then none
            else pyFloat (removeCommas (pyStrip (row.getD vc "")))) = none
      by_cases h2 : removeCommas (pyStrip (row.getD vc "")) = ""
      · rw [if_pos h2]
      · rw [if_neg h2, h]
    · simp only [if_neg h1]
  · intro s h
    simp only [parse_amount]
    by_cases h2 : pyStrip s = ""
    · simp [h2]
    · simp [h2, h]

/-- Witness for C4 (amended) at the concrete non-numeric figure `"abc"`. -/
theorem C4_amended_nonnumeric_figures_witness :
    rowAmount ["abc"] 0 = none ∧ parse_amount (some "abc") = 0 :=
  ⟨C4_amended_nonnumeric_figures.1 ["abc"] 0 (by rfl),
   C4_amended_nonnumeric_figures.2 "abc" (by rfl)⟩

/-- C3: the Label/Amount Joiner's `build_node` omits a node together with its
entire subtree whenever the node's resolved label is blank (even if the
subtree has valid labels), and a node with a non-blank label is never deleted
merely because children were pruned: it survives with exactly the non-pruned
children. -/
theorem C3_joiner_prunes_blank_label_subtrees
    (rd : Nat → Option RowEntry) (row : Nat) (cs : List RNode) :
    (pyStrip (labelOf rd row) = "" → build_node rd (.mk row cs) = none)
    ∧ (pyStrip (labelOf rd row) ≠ "" →
        build_node rd (.mk row cs)
          = some ⟨row, labelOf rd row, amountOf rd row, buildChildren rd cs⟩)
    ∧ buildChildren rd cs = cs.filterMap (build_node rd) := by
  refine ⟨?_, ?_, ?_⟩
  · intro h
    simp [build_node, h]
  · intro h
    have hne : labelOf rd row ≠ "" := by
      intro he
      exact h (by rw [he]; rfl)
    simp [build_node, hne, h]
  · induction cs with
    | nil => simp [buildChildren]
    | cons c rest ih =>
      rw [buildChildren, List.filterMap_cons]
      cases hb : build_node rd c with
      | none => simp [hb, ih]
      | some j => simp [hb, ih]

/-- Concrete row data for the C3 witness: row 1 has a whitespace-only label,
row 2 a valid one. -/
def c3RowData : Nat → Option RowEntry :=
  fun r => if r = 1 then some ⟨" ", 5⟩ else if r = 2 then some ⟨"Valid", 3⟩ else none

/-- Witness for C3: the blank-labelled row 1 is pruned with its valid-labelled
child row 2 (pruning, not promotion), while row 2 alone survives. -/
theorem C3_joiner_prunes_blank_label_subtrees_witness :
    build_node c3RowData (.mk 1 [.mk 2 []]) = none
    ∧ build_node c3RowData (.mk 2 []) = some ⟨2, "Valid", 3, []⟩ :=
  ⟨(C3_joiner_prunes_blank_label_subtrees c3RowData 1 [.mk 2 []]).1 (by rfl),
   (C3_joiner_prunes_blank_label_subtrees c3RowData 2 []).2.1 (by decide)⟩

/-- C10: on an input with an empty list of root nodes both flatteners have
zero leaf records, and the `max(...)` over the empty depth sequence raises
`ValueError` (modelled as `none`) rather than producing an output with zero
records. -/
theorem C10_flattener_raises_on_empty_input (max_levels : Nat) :
    get_leaf_nodes_with_details ⟨[], [], []⟩ [] = []
    ∧ flatten_hierarchy_to_csv [] max_levels = none
    ∧ flatten_hierarchy_to_json [] max_levels = none := by
  refine ⟨?_, ?_, ?_⟩ <;>
    simp [get_leaf_nodes_with_details, flatten_hierarchy_to_csv, flatten_hierarchy_to_json]

/-- C1 (amended): on interpreted rows with depth columns `[0,2,0,1]` the
builder attaches the depth-2 row as the sole child of the first depth-0 root
(no depth-1 ancestor is invented), but the second depth-0 row starts a *new*
root and the final depth-1 row becomes that second root's child — it is not a
sibling of the depth-2 node and sits under a different depth-0 root.  With
depth columns `[0,2,1]` (the skip-then-return within one root) the depth-1
row does become a sibling of the depth-2 node under the same depth-0 root. -/
theorem C1_amended_skip_then_return
    (v1 v2 v3 v4 : String) (a1 a2 a3 a4 : Option Rat) :
    buildForest [⟨0, v1, a1⟩, ⟨2, v2, a2⟩, ⟨0, v3, a3⟩, ⟨1, v4, a4⟩]
      = [.mk 0 0 v1 a1 none [.mk 1 2 v2 a2 none []],
         .mk 2 0 v3 a3 none [.mk 3 1 v4 a4 none []]]
    ∧ buildForest [⟨0, v1, a1⟩, ⟨2, v2, a2⟩, ⟨1, v3, a3⟩]
      = [.mk 0 0 v1 a1 none [.mk 1 2 v2 a2 none [], .mk 2 1 v3 a3 none []]] :=
  ⟨rfl, rfl⟩

/-- The concrete interpreted rows refuting C1 as stated. -/
def c1Rows : List InterpRow :=
  [⟨0, "A", none⟩, ⟨2, "B", none⟩, ⟨0, "C", none⟩, ⟨1, "D", none⟩]

/-- C1 counterexample: for depth columns `[0,2,0,1]` no root of the built
forest has both the depth-2 node and the depth-1 node among its children —
the depth-1 row is *not* a sibling of the depth-2 node under the same
depth-0 root, contrary to the claim. -/
theorem C1_counterexample_no_shared_root :
    ¬ ∃ r ∈ buildForest c1Rows,
        (∃ b ∈ r.children, b.value = "B") ∧ (∃ d ∈ r.children, d.value = "D") := by
  decide

theorem get_leaf_count : ∀ (pinfo : PInfo) (ns : List Node),
    (get_leaf_nodes_with_details pinfo ns).length = countLeaves ns
  | _, [] => by simp [get_leaf_nodes_with_details, countLeaves]
  | pinfo, n :: rest => by
    have h2 := get_leaf_count pinfo rest
    by_cases hc : n.children.isEmpty
    · simp [get_leaf_nodes_with_details, countLeaves, hc, h2]
      omega
    · have h1 := get_leaf_count
        ⟨pinfo.path ++ [n.value], pinfo.ancestors ++ [n],
         pinfo.levels ++ [((pinfo.path ++ [n.value]).length - 1, ⟨n.value, n.amount, n.descr⟩)]⟩
        n.children
      simp only [List.length_append, List.length_cons, List.length_nil, Nat.zero_add,
        Nat.add_sub_cancel] at h1
      simp [get_leaf_nodes_with_details, countLeaves, hc, h1, h2]
termination_by _ ns => sizeOf ns
decreasing_by
  all_goals simp only [List.cons.sizeOf_spec]
  all_goals have := Node_sizeOf_children_lt n
  all_goals omega

theorem get_leaf_depths : ∀ (pinfo : PInfo) (ns : List Node),
    (get_leaf_nodes_with_details pinfo ns).map LeafInfo.depth
      = (leafPathLens (pinfo.path.length + 1) ns).map (fun d => d - 1)
  | _, [] => by simp [get_leaf_nodes_with_details, leafPathLens]
  | pinfo, n :: rest => by
    have h2 := get_leaf_depths pinfo rest
    by_cases hc : n.children.isEmpty
    · simp [get_leaf_nodes_with_details, leafPathLens, hc, h2]
    · have h1 := get_leaf_depths
        ⟨pinfo.path ++ [n.value], pinfo.ancestors ++ [n],
         pinfo.levels ++ [((pinfo.path ++ [n.value]).length - 1, ⟨n.value, n.amount, n.descr⟩)]⟩
        n.children
      simp only [List.length_append, List.length_cons, List.length_nil, Nat.zero_add,
        Nat.add_sub_cancel] at h1
      simp [get_leaf_nodes_with_details, leafPathLens, hc, h1, h2]
termination_by _ ns => sizeOf ns
decreasing_by
  all_goals simp only [List.cons.sizeOf_spec]
  all_goals have := Node_sizeOf_children_lt n
  all_goals omega

theorem traverseP_count : ∀ (cp : List String) (ns : List Node),
    (traverseP cp ns).length = countLeaves ns
  | _, [] => by simp [traverseP, countLeaves]
  | cp, n :: rest => by
    have h2 := traverseP_count cp rest
    by_cases hc : n.children.isEmpty
    · simp [traverseP, countLeaves, hc, h2]
      omega
    · have h1 := traverseP_count (cp ++ [pyStrip n.value]) n.children
      simp [traverseP, countLeaves, hc, h1, h2]
termination_by _ ns => sizeOf ns
decreasing_by
  all_goals simp only [List.cons.sizeOf_spec]
  all_goals have := Node_sizeOf_children_lt n
  all_goals omega

theorem traverseP_depths : ∀ (cp : List String) (ns : List Node),
    (traverseP cp ns).map PRecord.depth = leafPathLens (cp.length + 1) ns
  | _, [] => by simp [traverseP, leafPathLens]
  | cp, n :: rest => by
    have h2 := traverseP_depths cp rest
    by_cases hc : n.children.isEmpty
    · simp [traverseP, leafPathLens, hc, h2]
    · have h1 := traverseP_depths (cp ++ [pyStrip n.value]) n.children
      simp only [List.length_append, List.length_cons, List.length_nil, Nat.zero_add] at h1
      simp [traverseP, leafPathLens, hc, h1, h2]
termination_by _ ns => sizeOf ns
decreasing_by
  all_goals simp only [List.cons.sizeOf_spec]
  all_goals have := Node_sizeOf_children_lt n
  all_goals omega

/-- C6 (amended): both flatteners emit exactly one record per childless node,
but their depths differ: the table flattener's record depth is the
root-to-node path length minus one (a childless root yields depth 0), while
the parquet flattener's record depth is the path length itself (a childless
root yields depth 1). -/
theorem C6_amended_one_record_per_leaf (nodes : List Node) :
    (get_leaf_nodes_with_details ⟨[], [], []⟩ nodes).length = countLeaves nodes
    ∧ (get_leaf_nodes_with_details ⟨[], [], []⟩ nodes).map LeafInfo.depth
        = (leafPathLens 1 nodes).map (fun d => d - 1)
    ∧ (find_leaves_and_paths nodes).length = countLeaves nodes
    ∧ (find_leaves_and_paths nodes).map PRecord.depth = leafPathLens 1 nodes := by
  refine ⟨get_leaf_count _ nodes, ?_, traverseP_count [] nodes, ?_⟩
  · simpa using get_leaf_depths ⟨[], [], []⟩ nodes
  · simpa using traverseP_depths [] nodes

/-- The childless root refuting C6 for the parquet flattener. -/
def c6Node : Node := .mk "X" none none []

/-- C6 counterexample: a childless root node yields, in the parquet
flattener, a single record whose depth is 1 — not 0, the root-to-node path
length minus one that the claim states for every Flattener record. -/
theorem C6_counterexample_parquet_depth :
    ∃ r ∈ find_leaves_and_paths [c6Node], r.depth ≠ 0 := by
  simp [find_leaves_and_paths, traverseP, c6Node, Node.children, Node.value, Node.descr,
    Node.amount]

/-- A cell (at an in-range index) that is non-empty after stripping and
classifies as a marker — the claim-level notion of "a non-empty cell that
classifies as a marker". -/
def cellMarker (row : List String) (i : Nat) : Prop :=
  i < row.length ∧ pyStrip (row.getD i "") ≠ ""
    ∧ is_bullet (pyStrip (row.getD i "")) = some true

/-- A cell (at an in-range index) that is non-empty after stripping. -/
def cellNonEmpty (row : List String) (i : Nat) : Prop :=
  i < row.length ∧ pyStrip (row.getD i "") ≠ ""

theorem findBullet_eq_some (row : List String) (i k : Nat) (hik : i ≤ k)
    (hk : cellMarker row k)
    (hmin : ∀ j, i ≤ j → j < k → ¬ cellMarker row j) :
    findBullet row i = some k := by
  have hkl : k < row.length := hk.1
  have hil : i < row.length := lt_of_le_of_lt hik hkl
  rw [findBullet, if_pos hil]
  by_cases hcase : i = k
  · subst hcase
    rw [if_pos ⟨hk.2.1, hk.2.2⟩]
  · have hne : ¬ (pyStrip (row.getD i "") ≠ ""
        ∧ is_bullet (pyStrip (row.getD i "")) = some true) := by
      intro hcontra
      exact hmin i le_rfl (lt_of_le_of_ne hik hcase) ⟨hil, hcontra.1, hcontra.2⟩
    rw [if_neg hne]
    exact findBullet_eq_some row (i + 1) k (by omega) hk
      (fun j hj1 hj2 => hmin j (by omega) hj2)
termination_by k - i
decreasing_by omega

theorem findBullet_eq_none (row : List String) (i : Nat)
    (h : ∀ j, i ≤ j → ¬ cellMarker row j) :
    findBullet row i = none := by
  rw [findBullet]
  by_cases hil : i < row.length
  · rw [if_pos hil]
    have hne : ¬ (pyStrip (row.getD i "") ≠ ""
        ∧ is_bullet (pyStrip (row.getD i "")) = some true) := by
      intro hcontra
      exact h i le_rfl ⟨hil, hcontra.1, hcontra.2⟩
    rw [if_neg hne]
    exact findBullet_eq_none row (i + 1) (fun j hj => h j (by omega))
  · rw [if_neg hil]
termination_by row.length - i
decreasing_by omega

theorem findNonBullet_eq_some (row : List String) (i k : Nat) (hik : i ≤ k)
    (hkl : k < row.length) (hkne : pyStrip (row.getD k "") ≠ "")
    (hknb : ¬ is_bullet (pyStrip (row.getD k "")) = some true)
    (hmin : ∀ j, i ≤ j → j < k → ¬ cellNonEmpty row j) :
    findNonBullet row i = some k := by
  have hil : i < row.length := lt_of_le_of_lt hik hkl
  rw [findNonBullet, if_pos hil]
  by_cases hcase : i = k
  · subst hcase
    rw [if_pos ⟨hkne, hknb⟩]
  · have hne : ¬ (pyStrip (row.getD i "") ≠ ""
        ∧ ¬ is_bullet (pyStrip (row.getD i "")) = some true) := by
      intro hcontra
      exact hmin i le_rfl (lt_of_le_of_ne hik hcase) ⟨hil, hcontra.1⟩
    rw [if_neg hne]
    exact findNonBullet_eq_some row (i + 1) k (by omega) hkl hkne hknb
      (fun j hj1 hj2 => hmin j (by omega) hj2)
termination_by k - i
decreasing_by omega

theorem findNonBullet_eq_none (row : List String) (i : Nat)
    (h : ∀ j, i ≤ j → ¬ cellNonEmpty row j) :
    findNonBullet row i = none := by
  rw [findNonBullet]
  by_cases hil : i < row.length
  · rw [if_pos hil]
    have hne : ¬ (pyStrip (row.getD i "") ≠ ""
        ∧ ¬ is_bullet (pyStrip (row.getD i "")) = some true) := by
      intro hcontra
      exact h i le_rfl ⟨hil, hcontra.1⟩
    rw [if_neg hne]
    exact findNonBullet_eq_none row (i + 1) (fun j hj => h j (by omega))
  · rw [if_neg hil]
termination_by row.length - i
decreasing_by omega

/-- A cell of the XLSX variant (at an in-range index) whose text is truthy
and classifies as a marker — the XLSX code tests cell truthiness, not
blankness after stripping. -/
def cellMarkerX (row : List XCell) (i : Nat) : Prop :=
  i < row.length ∧ (row.getD i XCell.empty).text ≠ ""
    ∧ is_bullet (pyStrip (row.getD i XCell.empty).text) = some true

/-- A cell of the XLSX variant (at an in-range index) whose text is truthy
(non-empty, possibly whitespace-only). -/
def cellTruthyX (row : List XCell) (i : Nat) : Prop :=
  i < row.length ∧ (row.getD i XCell.empty).text ≠ ""

theorem findBulletX_eq_some (row : List XCell) (i k : Nat) (hik : i ≤ k)
    (hk : cellMarkerX row k)
    (hmin : ∀ j, i ≤ j → j < k → ¬ cellMarkerX row j) :
    findBulletX row i = some k := by
  have hkl : k < row.length := hk.1
  have hil : i < row.length := lt_of_le_of_lt hik hkl
  rw [findBulletX, if_pos hil]
  by_cases hcase : i = k
  · subst hcase
    rw [if_pos ⟨hk.2.1, hk.2.2⟩]
  · have hne : ¬ ((row.getD i XCell.empty).text ≠ ""
        ∧ is_bullet (pyStrip (row.getD i XCell.empty).text) = some true) := by
      intro hcontra
      exact hmin i le_rfl (lt_of_le_of_ne hik hcase) ⟨hil, hcontra.1, hcontra.2⟩
    rw [if_neg hne]
    exact findBulletX_eq_some row (i + 1) k (by omega) hk
      (fun j hj1 hj2 => hmin j (by omega) hj2)
termination_by k - i
decreasing_by omega

theorem findBulletX_eq_none (row : List XCell) (i : Nat)
    (h : ∀ j, i ≤ j → ¬ cellMarkerX row j) :
    findBulletX row i = none := by
  rw [findBulletX]
  by_cases hil : i < row.length
  · rw [if_pos hil]
    have hne : ¬ ((row.getD i XCell.empty).text ≠ ""
        ∧ is_bullet (pyStrip (row.getD i XCell.empty).text) = some true) := by
      intro hcontra
      exact h i le_rfl ⟨hil, hcontra.1, hcontra.2⟩
    rw [if_neg hne]
    exact findBulletX_eq_none row (i + 1) (fun j hj => h j (by omega))
  · rw [if_neg hil]
termination_by row.length - i
decreasing_by omega

theorem findNonBulletX_eq_some (row : List XCell) (i k : Nat) (hik : i ≤ k)
    (hkl : k < row.length) (hkne : (row.getD k XCell.empty).text ≠ "")
    (hknb : ¬ is_bullet (pyStrip (row.getD k XCell.empty).text) = some true)
    (hmin : ∀ j, i ≤ j → j < k → ¬ cellTruthyX row j) :
    findNonBulletX row i = some k := by
  have hil : i < row.length := lt_of_le_of_lt hik hkl
  rw [findNonBulletX, if_pos hil]
  by_cases hcase : i = k
  · subst hcase
    rw [if_pos ⟨hkne, hknb⟩]
  · have hne : ¬ ((row.getD i XCell.empty).text ≠ ""
        ∧ ¬ is_bullet (pyStrip (row.getD i XCell.empty).text) = some true) := by
      intro hcontra
      exact hmin i le_rfl (lt_of_le_of_ne hik hcase) ⟨hil, hcontra.1⟩
    rw [if_neg hne]
    exact findNonBulletX_eq_some row (i + 1) k (by omega) hkl hkne hknb
      (fun j hj1 hj2 => hmin j (by omega) hj2)
termination_by k - i
decreasing_by omega

theorem findNonBulletX_eq_none (row : List XCell) (i : Nat)
    (h : ∀ j, i ≤ j → ¬ cellTruthyX row j) :
    findNonBulletX row i = none := by
  rw [findNonBulletX]
  by_cases hil : i < row.length
  · rw [if_pos hil]
    have hne : ¬ ((row.getD i XCell.empty).text ≠ ""
        ∧ ¬ is_bullet (pyStrip (row.getD i XCell.empty).text) = some true) := by
      intro hcontra
      exact h i le_rfl ⟨hil, hcontra.1⟩
    rw [if_neg hne]
    exact findNonBulletX_eq_none row (i + 1) (fun j hj => h j (by omega))
  · rw [if_neg hil]
termination_by row.length - i
decreasing_by omega

/-- C7 counterexample: the two cited Row Interpreter implementations disagree
on whitespace-only cells, so no single reading of "non-empty" makes the claim
true of both.  Reading "non-empty" as non-blank after stripping (the CSV
code's test): on the marker-free row `["", " ", "Real"]` the first non-blank
column is 2, but the XLSX variant returns columns `(1, 1)` — the
whitespace-only truthy cell captures the row (which the caller then
discards, so column 2's text supplies nothing); and after the marker `"a."`
whose following cell is whitespace-only the XLSX variant still returns a
value column instead of making the row yield nothing.  Reading "non-empty"
as truthy (the XLSX code's test): the CSV variant yields nothing on that
same marker row instead of taking the value from the truthy following
column. -/
theorem C7_counterexample_whitespace_cells :
    (findHierarchyInfoX [⟨"", false⟩, ⟨" ", false⟩, ⟨"Real", false⟩] 1 = some (1, 1, false)
      ∧ findHierarchyInfoX [⟨"", false⟩, ⟨" ", false⟩, ⟨"Real", false⟩] 1 ≠ some (2, 2, false))
    ∧ (findHierarchyInfoX [⟨"", false⟩, ⟨"a.", false⟩, ⟨" ", false⟩] 1 = some (1, 2, false)
      ∧ findHierarchyInfoX [⟨"", false⟩, ⟨"a.", false⟩, ⟨" ", false⟩] 1 ≠ none)
    ∧ (find_hierarchy_info ["", "a.", " "] 1 = none
      ∧ find_hierarchy_info ["", "a.", " "] 1 ≠ some (1, 2)) := by
  have h1 : findHierarchyInfoX [⟨"", false⟩, ⟨" ", false⟩, ⟨"Real", false⟩] 1
      = some (1, 1, false) := by
    simp [findHierarchyInfoX, findBulletX, findNonBulletX, XCell.empty]
    decide
  have h2 : findHierarchyInfoX [⟨"", false⟩, ⟨"a.", false⟩, ⟨" ", false⟩] 1
      = some (1, 2, false) := by
    simp [findHierarchyInfoX, findBulletX, findNonBulletX, XCell.empty]
    decide
  have h3 : find_hierarchy_info ["", "a.", " "] 1 = none := by
    simp [find_hierarchy_info, findBullet, findNonBullet]
    decide
  refine ⟨⟨h1, ?_⟩, ⟨h2, ?_⟩, ⟨h3, ?_⟩⟩
  · rw [h1]
    decide
  · rw [h2]
    decide
  · rw [h3]
    decide

/-- C7 (amended): the Row Interpreter's column resolution, per variant.  For
the CSV variant, with "non-empty" meaning non-blank after stripping: if,
scanning from the start column, some non-blank cell classifies as a marker,
the first such cell's index is the depth column and the value column is the
next column when that column is non-blank, while a marker whose following
column is blank or out of range makes the row yield nothing; with no marker,
the first non-blank column supplies both columns (a row with no non-blank
cell yields nothing).  The XLSX variant instead tests cells for truthiness
(non-empty text, whitespace-only included): the first truthy marker cell is
the depth column and the following column is the value column whenever its
text is merely non-empty; with no marker, the first cell with non-empty text
supplies both columns — so a whitespace-only cell can capture the row. -/
theorem C7_find_hierarchy_info_spec (row : List String) (start_col : Nat)
    (rowX : List XCell) (start_colX : Nat) :
    (∀ i, start_col ≤ i → cellMarker row i →
       (∀ j, start_col ≤ j → j < i → ¬ cellMarker row j) →
       ((i + 1 < row.length ∧ pyStrip (row.getD (i + 1) "") ≠ "") →
          find_hierarchy_info row start_col = some (i, i + 1))
       ∧ (¬ (i + 1 < row.length ∧ pyStrip (row.getD (i + 1) "") ≠ "") →
          find_hierarchy_info row start_col = none))
    ∧ ((∀ j, start_col ≤ j → ¬ cellMarker row j) →
       ∀ i, start_col ≤ i → cellNonEmpty row i →
         (∀ j, start_col ≤ j → j < i → ¬ cellNonEmpty row j) →
         find_hierarchy_info row start_col = some (i, i))
    ∧ ((∀ j, start_col ≤ j → ¬ cellNonEmpty row j) →
       find_hierarchy_info row start_col = none)
    ∧ (∀ i, start_colX ≤ i → cellMarkerX rowX i →
       (∀ j, start_colX ≤ j → j < i → ¬ cellMarkerX rowX j) →
       ((i + 1 < rowX.length ∧ (rowX.getD (i + 1) XCell.empty).text ≠ "") →
          findHierarchyInfoX rowX start_colX
            = some (i, i + 1, (rowX.getD (i + 1) XCell.empty).italic))
       ∧ (¬ (i + 1 < rowX.length ∧ (rowX.getD (i + 1) XCell.empty).text ≠ "") →
          findHierarchyInfoX rowX start_colX = none))
    ∧ ((∀ j, start_colX ≤ j → ¬ cellMarkerX rowX j) →
       ∀ i, start_colX ≤ i → cellTruthyX rowX i →
         (∀ j, start_colX ≤ j → j < i → ¬ cellTruthyX rowX j) →
         findHierarchyInfoX rowX start_colX
           = some (i, i, (rowX.getD i XCell.empty).italic))
    ∧ ((∀ j, start_colX ≤ j → ¬ cellTruthyX rowX j) →
       findHierarchyInfoX rowX start_colX = none) := by
  refine ⟨?_, ?_, ?_, ?_, ?_, ?_⟩
  · intro i hsi hm hmin
    have hb := findBullet_eq_some row start_col i hsi hm hmin
    constructor
    · intro hval
      simp only [find_hierarchy_info, hb]
      rw [if_pos hval]
    · intro hval
      simp only [find_hierarchy_info, hb]
      rw [if_neg hval]
  · intro hnob i hsi hne hmin
    have hb := findBullet_eq_none row start_col hnob
    have hnb : ¬ is_bullet (pyStrip (row.getD i "")) = some true := by
      intro hbul
      exact hnob i hsi ⟨hne.1, hne.2, hbul⟩
    have hn := findNonBullet_eq_some row start_col i hsi hne.1 hne.2 hnb hmin
    simp only [find_hierarchy_info, hb, hn]
    rfl
  · intro hnone
    have hb := findBullet_eq_none row start_col
      (fun j hj hm => hnone j hj ⟨hm.1, hm.2.1⟩)
    have hn := findNonBullet_eq_none row start_col
      (fun j hj hm => hnone j hj hm)
    simp only [find_hierarchy_info, hb, hn]
    rfl
  · intro i hsi hm hmin
    have hb := findBulletX_eq_some rowX start_colX i hsi hm hmin
    constructor
    · intro hval
      simp only [findHierarchyInfoX, hb]
      rw [if_pos hval]
    · intro hval
      simp only [findHierarchyInfoX, hb]
      rw [if_neg hval]
  · intro hnob i hsi hne hmin
    have hb := findBulletX_eq_none rowX start_colX hnob
    have hnb : ¬ is_bullet (pyStrip (rowX.getD i XCell.empty).text) = some true := by
      intro hbul
      exact hnob i hsi ⟨hne.1, hne.2, hbul⟩
    have hn := findNonBulletX_eq_some rowX start_colX i hsi hne.1 hne.2 hnb hmin
    simp only [findHierarchyInfoX, hb, hn]
    rfl
  · intro hnone
    have hb := findBulletX_eq_none rowX start_colX
      (fun j hj hm => hnone j hj ⟨hm.1, hm.2.1⟩)
    have hn := findNonBulletX_eq_none rowX start_colX
      (fun j hj hm => hnone j hj hm)
    simp only [findHierarchyInfoX, hb, hn]
    rfl

/-- Witness for C7 (amended) at concrete rows.  CSV: the marker `"a."` in
column 1 makes column 1 the depth column and column 2 the value column; a
marker with a blank following column yields nothing; a marker-free row uses
its first non-blank column for both.  XLSX: the same marker row with a
whitespace-only following cell does yield the value column `(1, 2)`, and a
marker-free row is captured by its whitespace-only truthy cell `(1, 1)`
rather than the first non-blank column. -/
theorem C7_find_hierarchy_info_spec_witness :
    find_hierarchy_info ["", "a.", "Item"] 1 = some (1, 2)
    ∧ find_hierarchy_info ["", "a.", " "] 1 = none
    ∧ find_hierarchy_info ["", "", "Program"] 1 = some (2, 2)
    ∧ findHierarchyInfoX [⟨"", false⟩, ⟨"a.", false⟩, ⟨" ", false⟩] 1 = some (1, 2, false)
    ∧ findHierarchyInfoX [⟨"", false⟩, ⟨" ", false⟩, ⟨"Real", false⟩] 1 = some (1, 1, false) :=
  ⟨((C7_find_hierarchy_info_spec ["", "a.", "Item"] 1 [] 0).1 1 (by omega)
      (by unfold cellMarker; decide)
      (by intro j h1 h2; omega)).1 (by decide),
   ((C7_find_hierarchy_info_spec ["", "a.", " "] 1 [] 0).1 1 (by omega)
      (by unfold cellMarker; decide)
      (by intro j h1 h2; omega)).2 (by decide),
   (C7_find_hierarchy_info_spec ["", "", "Program"] 1 [] 0).2.1
      (by intro j hj hc
          obtain ⟨h1, h2, h3⟩ := hc
          have hub : j < 3 := by simpa using h1
          interval_cases j
          · exact h2 (by decide)
          · exact absurd h3 (by decide))
      2 (by omega) (by unfold cellNonEmpty; decide)
      (by intro j h1 h2 hc
          obtain ⟨h3, h4⟩ := hc
          interval_cases j
          exact h4 (by decide)),
   ((C7_find_hierarchy_info_spec [] 0 [⟨"", false⟩, ⟨"a.", false⟩, ⟨" ", false⟩] 1).2.2.2.1
      1 (by omega) (by unfold cellMarkerX; decide)
      (by intro j h1 h2; omega)).1 (by decide),
   (C7_find_hierarchy_info_spec [] 0 [⟨"", false⟩, ⟨" ", false⟩, ⟨"Real", false⟩] 1).2.2.2.2.1
      (by intro j hj hc
          obtain ⟨h1, h2, h3⟩ := hc
          have hub : j < 3 := by simpa using h1
          interval_cases j
          · exact absurd h3 (by decide)
          · exact absurd h3 (by decide))
      1 (by omega) (by unfold cellTruthyX; decide)
      (by intro j h1 h2; omega)⟩

/-- C8: a row whose value cell is classified as a description (italic) and
whose figure column yields no amount never creates a node: the builder state
is unchanged except that the row's stripped text is appended (space-joined)
to the description of the node on top of the stack; when the stack is empty
the state — roots, stack and row counter — is unchanged and the text is
dropped. -/
theorem C8_description_rows (value_column start_column : Nat) (st : BState)
    (row : List XCell) (hcol vci : Nat)
    (hfind : findHierarchyInfoX row start_column = some (hcol, vci, true))
    (hvl : vci < row.length)
    (hdv : pyStrip (row.getD vci XCell.empty).text ≠ "")
    (hamt : xAmount row value_column = none) :
    stepX value_column start_column st row
      = (match st.stack with
         | [] => st
         | f :: rest =>
           { st with stack :=
               { f with descr := some (descAppend f.descr
                   (pyStrip (row.getD vci XCell.empty).text)) } :: rest }) := by
  have htext : (row.getD vci XCell.empty).text ≠ "" := by
    intro he
    apply hdv
    rw [he]
    rfl
  have hmem : row.getD vci XCell.empty ∈ row := by
    have hg : row.getD vci XCell.empty = row[vci] := List.getD_eq_getElem row XCell.empty hvl
    rw [hg]
    exact List.getElem_mem hvl
  have hall : ¬ (row.all (fun c => pyStrip c.text = "") = true) := by
    intro hae
    rw [List.all_eq_true] at hae
    exact hdv (by simpa using hae _ hmem)
  simp only [stepX, if_neg hall, hfind]
  rw [if_pos ⟨hvl, htext⟩, if_neg hdv, if_pos ⟨trivial, hamt⟩]

/-- Builder state for the C8 witness: one node open on the stack. -/
def c8State : BState := ⟨[], [⟨0, 1, "Node", none, none, []⟩], 1⟩

/-- The C8 witness row: an italic, amount-less text cell in column 1. -/
def c8Row : List XCell := [⟨"", false⟩, ⟨"Some description text", true⟩]

/-- Witness for C8: the description row mutates only the top-of-stack node's
description; no node is created. -/
theorem C8_description_rows_witness :
    stepX 10 1 c8State c8Row
      = ⟨[], [⟨0, 1, "Node", none, some "Some description text", []⟩], 1⟩ := by
  have h := C8_description_rows 10 1 c8State c8Row 1 1
    (by simp [findHierarchyInfoX, findBulletX, findNonBulletX, c8Row, XCell.empty]
        decide)
    (by decide) (by decide) (by decide)
  rw [h]
  rfl

theorem takeDigits_all (d : List Char) (hd : ∀ c ∈ d, c.isDigit = true) :
    takeDigits d = (d, []) := by
  induction d with
  | nil => rfl
  | cons c r ih =>
    have hc := hd c (List.mem_cons_self c r)
    have hr := ih (fun x hx => hd x (List.mem_cons_of_mem c hx))
    simp [takeDigits, hc, hr]

theorem takeDigits_append_nondigit (d : List Char) (c : Char) (r : List Char)
    (hd : ∀ x ∈ d, x.isDigit = true) (hc : c.isDigit = false) :
    takeDigits (d ++ c :: r) = (d, c :: r) := by
  induction d with
  | nil => simp [takeDigits, hc]
  | cons x xs ih =>
    have hx := hd x (List.mem_cons_self x xs)
    have hr := ih (fun y hy => hd y (List.mem_cons_of_mem x hy))
    simp [takeDigits, hx, hr]

theorem matchSumAt_shape (t : Char) (da db : List Char) (r : List Char)
    (hda : da ≠ []) (hdaD : ∀ c ∈ da, c.isDigit = true)
    (hdb : db ≠ []) (hdbD : ∀ c ∈ db, c.isDigit = true) :
    matchSumAt t ('S' :: 'U' :: 'M' :: '(' :: t :: (da ++ ':' :: t :: (db ++ ')' :: r)))
      = some (digitsVal da, digitsVal db) := by
  have h1 : takeDigits (da ++ ':' :: t :: (db ++ ')' :: r))
      = (da, ':' :: t :: (db ++ ')' :: r)) :=
    takeDigits_append_nondigit da ':' (t :: (db ++ ')' :: r)) hdaD (by decide)
  have h2 : takeDigits (db ++ ')' :: r) = (db, ')' :: r) :=
    takeDigits_append_nondigit db ')' r hdbD (by decide)
  simp [matchSumAt, h1, h2, hda, hdb]

theorem sumSearch_shape (t : Char) (da db : List Char) (r : List Char)
    (hda : da ≠ []) (hdaD : ∀ c ∈ da, c.isDigit = true)
    (hdb : db ≠ []) (hdbD : ∀ c ∈ db, c.isDigit = true) :
    sumSearch t ('S' :: 'U' :: 'M' :: '(' :: t :: (da ++ ':' :: t :: (db ++ ')' :: r)))
      = some (digitsVal da, digitsVal db) := by
  rw [sumSearch, matchSumAt_shape t da db r hda hdaD hdb hdbD]

theorem matchSumAt_none_of_head (t : Char) (c : Char) (rest : List Char)
    (hc : c ≠ 'S' ∧ c ≠ 's') : matchSumAt t (c :: rest) = none := by
  match rest with
  | [] => rfl
  | [_] => rfl
  | [_, _] => rfl
  | [_, _, _] => rfl
  | u :: m :: p :: k :: r =>
    show matchSumAt t (c :: u :: m :: p :: k :: r) = none
    rw [matchSumAt]
    rw [if_neg]
    rintro ⟨hS | hS, -⟩
    · exact hc.1 hS
    · exact hc.2 hS

theorem sumSearch_none (t : Char) :
    ∀ l : List Char, (∀ c ∈ l, c ≠ 'S' ∧ c ≠ 's') → sumSearch t l = none
  | [], _ => rfl
  | c :: rest, h => by
    have hm := matchSumAt_none_of_head t c rest (h c (List.mem_cons_self c rest))
    have hrec := sumSearch_none t rest (fun x hx => h x (List.mem_cons_of_mem c hx))
    rw [sumSearch, hm, hrec]

/-- The formula text of a list of individual references to column `t`, joined
by `+` (e.g. `K7+K14` for references `7` and `14`). -/
def refsShape (t : Char) : List (List Char) → List Char
  | [] => []
  | [d] => t :: d
  | d :: rest => (t :: d) ++ '+' :: refsShape t rest

theorem refsShape_chars (t : Char) :
    ∀ ds : List (List Char), (∀ d ∈ ds, ∀ c ∈ d, c.isDigit = true) →
      ∀ c ∈ refsShape t ds, c = t ∨ c = '+' ∨ c.isDigit = true
  | [], _, c, hc => by simp [refsShape] at hc
  | [d], h, c, hc => by
    simp only [refsShape, List.mem_cons] at hc
    rcases hc with hc | hc
    · exact Or.inl hc
    · exact Or.inr (Or.inr (h d (List.mem_cons_self d []) c hc))
  | d :: d2 :: rest, h, c, hc => by
    simp only [refsShape, List.cons_append, List.mem_cons, List.mem_append] at hc
    rcases hc with hc | hc | hc
    · exact Or.inl hc
    · exact Or.inr (Or.inr (h d (List.mem_cons_self d (d2 :: rest)) c hc))
    · rcases hc with hc | hc
      · exact Or.inr (Or.inl hc)
      · exact refsShape_chars t (d2 :: rest)
          (fun x hx => h x (List.mem_cons_of_mem d hx)) c hc

theorem findRefs_refsShape (t : Char) (htP : t ≠ '+') :
    ∀ ds : List (List Char), (∀ d ∈ ds, d ≠ [] ∧ ∀ c ∈ d, c.isDigit = true) →
      findRefs t (refsShape t ds) = ds.map digitsVal
  | [], _ => by simp [refsShape, findRefs]
  | [d], h => by
    have hd := h d (List.mem_cons_self d [])
    have ht : takeDigits d = (d, []) := takeDigits_all d hd.2
    rw [refsShape, findRefs, if_pos rfl]
    split
    · rename_i snd heq
      rw [ht] at heq
      injection heq with h1 h2
      exact absurd h1 hd.1
    · rename_i d2 ds2 r2 heq
      rw [ht] at heq
      injection heq with h1 h2
      rw [← h1, ← h2, findRefs]
      rfl
  | d :: e :: rest, h => by
    have hd := h d (List.mem_cons_self d (e :: rest))
    have ht : takeDigits (d ++ '+' :: refsShape t (e :: rest))
        = (d, '+' :: refsShape t (e :: rest)) :=
      takeDigits_append_nondigit d '+' (refsShape t (e :: rest)) hd.2 (by decide)
    have hrec := findRefs_refsShape t htP (e :: rest)
      (fun x hx => h x (List.mem_cons_of_mem d hx))
    rw [show refsShape t (d :: e :: rest) = (t :: d) ++ '+' :: refsShape t (e :: rest)
        from rfl]
    rw [List.cons_append, findRefs, if_pos rfl]
    split
    · rename_i snd heq
      rw [ht] at heq
      injection heq with h1 h2
      exact absurd h1 hd.1
    · rename_i d2 ds2 r2 heq
      rw [ht] at heq
      injection heq with h1 h2
      rw [← h1, ← h2, findRefs, if_neg (fun hh => htP hh.symm), hrec]
      rfl

theorem mem_insertSorted (x y : Nat) :
    ∀ l : List Nat, (y ∈ insertSorted x l ↔ y = x ∨ y ∈ l)
  | [] => by simp [insertSorted]
  | z :: r => by
    by_cases h1 : x < z
    · simp [insertSorted, h1]
    · by_cases h2 : x = z
      · subst h2
        simp [insertSorted, h1]
      · have hr := mem_insertSorted x y r
        simp [insertSorted, h1, h2, hr]
        tauto

theorem mem_sortedDedup (y : Nat) :
    ∀ l : List Nat, (y ∈ sortedDedup l ↔ y ∈ l)
  | [] => by simp [sortedDedup]
  | x :: r => by
    have h1 : sortedDedup (x :: r) = insertSorted x (sortedDedup r) := rfl
    rw [h1, mem_insertSorted x y (sortedDedup r)]
    have hr := mem_sortedDedup y r
    simp [hr]

/-- C5: the Formula-Reference parser.  (a) A formula that is a contiguous-range
SUM over the target column from the row written `da` to the row written `db`
expands to exactly every integer row in the inclusive range.  (b) A formula of
individual `+`-joined cell references to the target column yields exactly the
referenced row numbers (sorted, duplicates merged).  (c) The concrete
instances of the claim: `=SUM(K39:K55)` gives the 17 rows 39..55 and
`=K7+K14` gives rows 7 and 14. -/
theorem C5_formula_reference_expansion (t : Char)
    (htS : t ≠ 'S' ∧ t ≠ 's') (htP : t ≠ '+') (htD : t.isDigit = false) :
    (∀ da db : List Char,
       da ≠ [] → (∀ c ∈ da, c.isDigit = true) →
       db ≠ [] → (∀ c ∈ db, c.isDigit = true) →
       parse_formula_references
           (String.mk ('=' :: 'S' :: 'U' :: 'M' :: '(' :: t :: (da ++ ':' :: t :: (db ++ [')'])))) t
         = List.range' (digitsVal da) (digitsVal db + 1 - digitsVal da)
       ∧ ∀ n : Nat,
           (n ∈ parse_formula_references
              (String.mk ('=' :: 'S' :: 'U' :: 'M' :: '(' :: t :: (da ++ ':' :: t :: (db ++ [')'])))) t
            ↔ digitsVal da ≤ n ∧ n ≤ digitsVal db))
    ∧ (∀ ds : List (List Char),
       (∀ d ∈ ds, d ≠ [] ∧ ∀ c ∈ d, c.isDigit = true) →
       parse_formula_references (String.mk ('=' :: refsShape t ds)) t
         = sortedDedup (ds.map digitsVal)
       ∧ ∀ n : Nat,
           (n ∈ parse_formula_references (String.mk ('=' :: refsShape t ds)) t
            ↔ n ∈ ds.map digitsVal))
    ∧ parse_formula_references "=SUM(K39:K55)" 'K' = List.range' 39 17
    ∧ (parse_formula_references "=SUM(K39:K55)" 'K').length = 17
    ∧ parse_formula_references "=K7+K14" 'K' = [7, 14] := by
  have partA : ∀ da db : List Char,
      da ≠ [] → (∀ c ∈ da, c.isDigit = true) →
      db ≠ [] → (∀ c ∈ db, c.isDigit = true) →
      parse_formula_references
          (String.mk ('=' :: 'S' :: 'U' :: 'M' :: '(' :: t :: (da ++ ':' :: t :: (db ++ [')'])))) t
        = List.range' (digitsVal da) (digitsVal db + 1 - digitsVal da) := by
    intro da db hda hdaD hdb hdbD
    have hs := sumSearch_shape t da db [] hda hdaD hdb hdbD
    rw [parse_formula_references]
    simp only [String.toList]
    rw [hs]
  have partB : ∀ ds : List (List Char),
      (∀ d ∈ ds, d ≠ [] ∧ ∀ c ∈ d, c.isDigit = true) →
      parse_formula_references (String.mk ('=' :: refsShape t ds)) t
        = sortedDedup (ds.map digitsVal) := by
    intro ds hds
    have hchars : ∀ c ∈ refsShape t ds, c ≠ 'S' ∧ c ≠ 's' := by
      intro c hc
      rcases refsShape_chars t ds (fun d hd => (hds d hd).2) c hc with hh | hh | hh
      · subst hh
        exact htS
      · subst hh
        exact ⟨by decide, by decide⟩
      · constructor
        · intro he
          subst he
          exact absurd hh (by decide)
        · intro he
          subst he
          exact absurd hh (by decide)
    have hss := sumSearch_none t (refsShape t ds) hchars
    have hfr := findRefs_refsShape t htP ds hds
    rw [parse_formula_references]
    simp only [String.toList]
    rw [hss, hfr]
  refine ⟨?_, ?_, ?_, ?_, ?_⟩
  · intro da db hda hdaD hdb hdbD
    refine ⟨partA da db hda hdaD hdb hdbD, ?_⟩
    intro n
    rw [partA da db hda hdaD hdb hdbD, List.mem_range'_1]
    omega
  · intro ds hds
    refine ⟨partB ds hds, ?_⟩
    intro n
    rw [partB ds hds, mem_sortedDedup]
  · rfl
  · rfl
  · have hss := sumSearch_none 'K' (refsShape 'K' [['7'], ['1', '4']]) (by decide)
    have hfr := findRefs_refsShape 'K' (by decide) [['7'], ['1', '4']] (by decide)
    rw [show ("=K7+K14" : String) = String.mk ('=' :: refsShape 'K' [['7'], ['1', '4']])
        from rfl]
    rw [parse_formula_references]
    simp only [String.toList]
    rw [hss, hfr]
    rfl

/-- Witness for C5 at the column letter `K` and the claim's own examples. -/
theorem C5_formula_reference_expansion_witness :
    parse_formula_references "=SUM(K39:K55)" 'K' = List.range' 39 17
    ∧ (parse_formula_references "=SUM(K39:K55)" 'K').length = 17
    ∧ parse_formula_references "=K7+K14" 'K' = [7, 14] :=
  ⟨(C5_formula_reference_expansion 'K' (by decide) (by decide) (by decide)).2.2.1,
   (C5_formula_reference_expansion 'K' (by decide) (by decide) (by decide)).2.2.2.1,
   (C5_formula_reference_expansion 'K' (by decide) (by decide) (by decide)).2.2.2.2⟩

theorem PNode_sizeOf_children_lt (n : PNode) : sizeOf n.children < sizeOf n := by
  cases n with
  | mk i c v a d cs =>
    simp only [PNode.children, PNode.mk.sizeOf_spec]
    omega

theorem ascIdx_append : ∀ (l : List PNode) (x : PNode),
    ascIdx l = true → (∀ y ∈ l, y.idx < x.idx) → ascIdx (l ++ [x]) = true
  | [], x, _, _ => by simp [ascIdx]
  | [a], x, _, h => by
    simp [ascIdx, h a (List.mem_cons_self a [])]
  | a :: b :: t, x, hasc, h => by
    simp only [ascIdx, Bool.and_eq_true, decide_eq_true_eq] at hasc
    have hrec := ascIdx_append (b :: t) x hasc.2
      (fun y hy => h y (List.mem_cons_of_mem a hy))
    simp only [List.cons_append] at hrec ⊢
    simp [ascIdx, hasc.1, hrec]

theorem nodesOK_append : ∀ (l₁ l₂ : List PNode),
    nodesOK (l₁ ++ l₂) = (nodesOK l₁ && nodesOK l₂)
  | [], l₂ => by simp [nodesOK]
  | n :: t, l₂ => by
    rw [List.cons_append, nodesOK, nodesOK, nodesOK_append t l₂]
    simp [Bool.and_assoc]

/-- The ghost-index discipline of the builder state: every node index in the
structure is below the bound, and each stack frame bounds everything beneath
it by its own index (so later-created nodes always sit higher). -/
def chainIdx : Nat → List Frame → List PNode → Prop
  | n, [], roots => ∀ r ∈ roots, r.idx < n
  | n, f :: rest, roots => (∀ k ∈ f.kids, k.idx < n) ∧ f.idx < n ∧ chainIdx f.idx rest roots

/-- Depth columns strictly decrease from the top of the stack downwards. -/
def colChain (stack : List Frame) : Prop :=
  List.Chain' (fun a b => b.hcol < a.hcol) stack

/-- Every open frame's accumulated children are well-formed, in index order,
and sit at strictly greater depth columns than the frame itself. -/
def framesOK (stack : List Frame) : Prop :=
  ∀ f ∈ stack, ascIdx f.kids = true ∧ (∀ k ∈ f.kids, f.hcol < k.hcol)
    ∧ nodesOK f.kids = true

theorem nodesOK_singleton (x : PNode) :
    nodesOK [x] = (ascIdx x.children && x.children.all (fun c => decide (x.hcol < c.hcol))
      && nodesOK x.children) := by
  rw [nodesOK, nodesOK]
  simp

theorem colsBelow_of_nodesOK : ∀ (c : Nat) (l : List PNode),
    (∀ x ∈ l, c < x.hcol) → nodesOK l = true → colsBelow c l = true
  | _, [], _, _ => by simp [colsBelow]
  | c, n :: rest, h, hok => by
    rw [nodesOK] at hok
    simp only [Bool.and_eq_true, List.all_eq_true, decide_eq_true_eq] at hok
    obtain ⟨⟨⟨h1, h2⟩, h3⟩, h4⟩ := hok
    have hkid : colsBelow c n.children = true :=
      colsBelow_of_nodesOK c n.children
        (fun x hx => lt_trans (h n (List.mem_cons_self n rest)) (h2 x hx)) h3
    have hrest : colsBelow c rest = true :=
      colsBelow_of_nodesOK c rest (fun x hx => h x (List.mem_cons_of_mem n hx)) h4
    rw [colsBelow]
    simp [h n (List.mem_cons_self n rest), hkid, hrest]
termination_by _ l => sizeOf l
decreasing_by
  all_goals simp only [List.cons.sizeOf_spec]
  all_goals have := PNode_sizeOf_children_lt n
  all_goals omega

theorem deepOK_of_nodesOK : ∀ l : List PNode, nodesOK l = true → deepOK l = true
  | [], _ => by simp [deepOK]
  | n :: rest, hok => by
    rw [nodesOK] at hok
    simp only [Bool.and_eq_true, List.all_eq_true, decide_eq_true_eq] at hok
    obtain ⟨⟨⟨h1, h2⟩, h3⟩, h4⟩ := hok
    have hbelow : colsBelow n.hcol n.children = true :=
      colsBelow_of_nodesOK n.hcol n.children h2 h3
    have hkid : deepOK n.children = true := deepOK_of_nodesOK n.children h3
    have hrest : deepOK rest = true := deepOK_of_nodesOK rest h4
    rw [deepOK]
    simp [hbelow, hkid, hrest]
termination_by l => sizeOf l
decreasing_by
  all_goals simp only [List.cons.sizeOf_spec]
  all_goals have := PNode_sizeOf_children_lt n
  all_goals omega

theorem closeFrame_idx (f : Frame) : (closeFrame f).idx = f.idx := rfl

theorem closeFrame_hcol (f : Frame) : (closeFrame f).hcol = f.hcol := rfl

theorem closeFrame_children (f : Frame) : (closeFrame f).children = f.kids := rfl

theorem popLoop_inv (c : Nat) :
    ∀ (stack : List Frame) (roots : List PNode) (pend : Option PNode) (n : Nat),
      colChain stack → framesOK stack →
      ascIdx roots = true → nodesOK roots = true →
      (match pend with
       | none => chainIdx n stack roots
       | some nd => nd.idx < n ∧ nodesOK [nd] = true ∧ chainIdx nd.idx stack roots
           ∧ (∀ g, stack.head? = some g → g.hcol < nd.hcol)) →
      colChain (popLoop c stack roots pend).1
      ∧ framesOK (popLoop c stack roots pend).1
      ∧ ascIdx (popLoop c stack roots pend).2 = true
      ∧ nodesOK (popLoop c stack roots pend).2 = true
      ∧ chainIdx n (popLoop c stack roots pend).1 (popLoop c stack roots pend).2
      ∧ ((popLoop c stack roots pend).1 = []
         ∨ ∃ g t, (popLoop c stack roots pend).1 = g :: t ∧ g.hcol < c)
  | [], roots, none, n, hcc, hfo, har, hnr, hp => by
    simp only [popLoop]
    exact ⟨List.chain'_nil, fun f hf => absurd hf (List.not_mem_nil f), har, hnr, hp,
      Or.inl trivial⟩
  | [], roots, some nd, n, hcc, hfo, har, hnr, hp => by
    obtain ⟨h1, h2, h3, _⟩ := hp
    rw [chainIdx] at h3
    simp only [popLoop]
    refine ⟨List.chain'_nil, fun f hf => absurd hf (List.not_mem_nil f), ?_, ?_, ?_,
      Or.inl trivial⟩
    · exact ascIdx_append roots nd har h3
    · rw [nodesOK_append]
      simp [hnr, h2]
    · rw [chainIdx]
      intro r hr
      rcases List.mem_append.mp hr with hr | hr
      · exact lt_trans (h3 r hr) h1
      · simp only [List.mem_singleton] at hr
        subst hr
        exact h1
  | f :: rest, roots, none, n, hcc, hfo, har, hnr, hp => by
    rw [chainIdx] at hp
    obtain ⟨hk, hfi, hrest⟩ := hp
    obtain ⟨ha, hb, hc2⟩ := hfo f (List.mem_cons_self f rest)
    by_cases hlt : f.hcol < c
    · simp only [popLoop, if_pos hlt]
      refine ⟨hcc, hfo, har, hnr, ?_, Or.inr ⟨f, rest, rfl, hlt⟩⟩
      rw [chainIdx]
      exact ⟨hk, hfi, hrest⟩
    · simp only [popLoop, if_neg hlt]
      apply popLoop_inv c rest roots (some (closeFrame f)) n
      · exact hcc.tail
      · exact fun g hg => hfo g (List.mem_cons_of_mem f hg)
      · exact har
      · exact hnr
      · refine ⟨hfi, ?_, ?_, ?_⟩
        · rw [nodesOK_singleton, closeFrame_children, closeFrame_hcol, ha, hc2]
          simp only [Bool.true_and, Bool.and_true, List.all_eq_true, decide_eq_true_eq]
          exact hb
        · rw [closeFrame_idx]
          exact hrest
        · intro g hg
          rw [closeFrame_hcol]
          match rest, hg with
          | g2 :: t, hg =>
            have hg2 : g2 = g := by
              simpa using hg
            subst hg2
            exact (List.chain'_cons.mp hcc).1
  | f :: rest, roots, some nd, n, hcc, hfo, har, hnr, hp => by
    obtain ⟨hnd1, hnd2, hnd3, hnd4⟩ := hp
    rw [chainIdx] at hnd3
    obtain ⟨hk, hfi, hrest⟩ := hnd3
    obtain ⟨ha, hb, hc2⟩ := hfo f (List.mem_cons_self f rest)
    have hhc : f.hcol < nd.hcol := hnd4 f rfl
    have fmasc : ascIdx (f.kids ++ [nd]) = true := ascIdx_append f.kids nd ha hk
    have fmcol : ∀ k ∈ f.kids ++ [nd], f.hcol < k.hcol := by
      intro k hk2
      rcases List.mem_append.mp hk2 with hk2 | hk2
      · exact hb k hk2
      · simp only [List.mem_singleton] at hk2
        subst hk2
        exact hhc
    have fmok : nodesOK (f.kids ++ [nd]) = true := by
      rw [nodesOK_append]
      simp [hc2, hnd2]
    by_cases hlt : f.hcol < c
    · simp only [popLoop, if_pos hlt]
      refine ⟨?_, ?_, har, hnr, ?_, Or.inr ⟨_, rest, rfl, hlt⟩⟩
      · match rest, hcc with
        | [], _ => exact List.chain'_singleton _
        | g2 :: t, hcc =>
          exact List.chain'_cons.mpr ⟨(List.chain'_cons.mp hcc).1, (List.chain'_cons.mp hcc).2⟩
      · intro g hg
        rcases List.mem_cons.mp hg with hg | hg
        · subst hg
          exact ⟨fmasc, fmcol, fmok⟩
        · exact hfo g (List.mem_cons_of_mem f hg)
      · rw [chainIdx]
        refine ⟨?_, lt_trans hfi hnd1, hrest⟩
        intro k hk2
        rcases List.mem_append.mp hk2 with hk2 | hk2
        · exact lt_trans (hk k hk2) hnd1
        · simp only [List.mem_singleton] at hk2
          subst hk2
          exact hnd1
    · simp only [popLoop, if_neg hlt]
      apply popLoop_inv c rest roots
        (some (closeFrame { f with kids := f.kids ++ [nd] })) n
      · exact hcc.tail
      · exact fun g hg => hfo g (List.mem_cons_of_mem f hg)
      · exact har
      · exact hnr
      · refine ⟨lt_trans hfi hnd1, ?_, ?_, ?_⟩
        · rw [nodesOK_singleton, closeFrame_children, closeFrame_hcol]
          simp only [fmasc, fmok, Bool.true_and, Bool.and_true, List.all_eq_true,
            decide_eq_true_eq]
          exact fmcol
        · rw [closeFrame_idx]
          exact hrest
        · intro g hg
          rw [closeFrame_hcol]
          match rest, hg with
          | g2 :: t, hg =>
            have hg2 : g2 = g := by
              simpa using hg
            subst hg2
            exact (List.chain'_cons.mp hcc).1

theorem step_inv (st : BState) (r : InterpRow)
    (hcc : colChain st.stack) (hfo : framesOK st.stack)
    (har : ascIdx st.roots = true) (hnr : nodesOK st.roots = true)
    (hch : chainIdx st.nextIdx st.stack st.roots) :
    colChain (step st r).stack ∧ framesOK (step st r).stack
    ∧ ascIdx (step st r).roots = true ∧ nodesOK (step st r).roots = true
    ∧ chainIdx (step st r).nextIdx (step st r).stack (step st r).roots := by
  obtain ⟨h1, h2, h3, h4, h5, h6⟩ :=
    popLoop_inv r.col st.stack st.roots none st.nextIdx hcc hfo har hnr hch
  simp only [step]
  refine ⟨?_, ?_, h3, h4, ?_⟩
  · rcases h6 with h6 | ⟨g, t, heq, hg⟩
    · rw [h6]
      exact List.chain'_singleton _
    · rw [heq]
      exact List.chain'_cons.mpr ⟨hg, heq ▸ h1⟩
  · intro g hg
    rcases List.mem_cons.mp hg with hg | hg
    · subst hg
      exact ⟨rfl, fun k hk => absurd hk (List.not_mem_nil k), by simp [nodesOK]⟩
    · exact h2 g hg
  · rw [chainIdx]
    exact ⟨fun k hk => absurd hk (List.not_mem_nil k), Nat.lt_succ_self _, h5⟩

theorem foldl_inv : ∀ (rows : List InterpRow) (st : BState),
    colChain st.stack → framesOK st.stack →
    ascIdx st.roots = true → nodesOK st.roots = true →
    chainIdx st.nextIdx st.stack st.roots →
    colChain (rows.foldl step st).stack ∧ framesOK (rows.foldl step st).stack
    ∧ ascIdx (rows.foldl step st).roots = true
    ∧ nodesOK (rows.foldl step st).roots = true
    ∧ chainIdx (rows.foldl step st).nextIdx (rows.foldl step st).stack
        (rows.foldl step st).roots
  | [], _, hcc, hfo, har, hnr, hch => ⟨hcc, hfo, har, hnr, hch⟩
  | r :: rs, st, hcc, hfo, har, hnr, hch => by
    obtain ⟨h1, h2, h3, h4, h5⟩ := step_inv st r hcc hfo har hnr hch
    simpa using foldl_inv rs (step st r) h1 h2 h3 h4 h5

/-- C2: every forest the Position-Based Tree Builder produces is well-formed:
root order and every node's child order follow source row order (the ghost
indices are strictly ascending), every child's depth column strictly exceeds
its parent's, and — by `deepOK` — every node's depth column strictly exceeds
every ancestor's, for arbitrary (also non-contiguous) depth-column sequences.
(That each node has exactly one parent or is a root, and exactly one depth
column, is structural in the tree embedding: a `PNode` occurs at exactly one
position of the forest and carries one `hcol` field.) -/
theorem C2_builder_forest_well_formed (rows : List InterpRow) :
    forestOK (buildForest rows) = true ∧ deepOK (buildForest rows) = true := by
  have hinit := foldl_inv rows ⟨[], [], 0⟩ List.chain'_nil
    (fun f hf => absurd hf (List.not_mem_nil f)) rfl (by simp [nodesOK])
    (by rw [chainIdx]; exact fun r hr => absurd hr (List.not_mem_nil r))
  obtain ⟨h1, h2, h3, h4, h5⟩ := hinit
  obtain ⟨_, _, hasc, hok, _, _⟩ :=
    popLoop_inv 0 (rows.foldl step ⟨[], [], 0⟩).stack (rows.foldl step ⟨[], [], 0⟩).roots
      none (rows.foldl step ⟨[], [], 0⟩).nextIdx h1 h2 h3 h4 h5
  have hb : buildForest rows
      = (popLoop 0 (rows.foldl step ⟨[], [], 0⟩).stack
          (rows.foldl step ⟨[], [], 0⟩).roots none).2 := rfl
  constructor
  · rw [hb]
    simp [forestOK, hasc, hok]
  · rw [hb]
    exact deepOK_of_nodesOK _ hok
